import Mathlib

/-!
Verification of the Aski type-universe encoding contract.

The repository file src/encoder/drafts/all-types.rs declares the Serde-compatible
type universe (newtypes, tuple structs, fixed arrays, enum variant forms, sets,
maps, recursion) as pure Rust type declarations.  The encoding/decoding rules
themselves are specified in the design document (canonical wire form, envelope
tagging, range checks, duplicate detection); the executable encoder is not part
of the source tree, so those rules are modelled here from the specification
while the data model below is translated from the Rust declarations.

Wire model (from the spec): null, boolean, number, string, ordered list,
ordered field-map.  Integer wire numbers are modelled as `Int`, floating point
wire numbers as `Rat` (the spec is representation-agnostic about numerals).
-/

namespace Aski

/-- The representation-agnostic wire value tree assumed by the encoding rules:
null, boolean, number (integer or fractional), string, ordered list, ordered
field-map. -/
inductive Wire : Type where
  | null : Wire
  | bool (b : Bool) : Wire
  | num (n : Int) : Wire
  | fnum (q : Rat) : Wire
  | str (s : String) : Wire
  | list (l : List Wire) : Wire
  | map (l : List (String × Wire)) : Wire

/-- The decode-time error taxonomy from the specification (schema-registration
errors are out of scope here; only value decode errors appear). -/
inductive Err : Type where
  | malformed : Err
  | rangeOverflow : Err
  | lengthMismatch : Err
  | arityMismatch : Err
  | unknownVariant : Err
  | duplicateElement : Err
  | duplicateKey : Err
  deriving DecidableEq, Repr

/-- A fixed-width integer value: an `Int` constrained to the declared range.
Width and signedness are part of type identity, as required by the catalog. -/
def IntR (lo hi : Int) : Type := {n : Int // lo ≤ n ∧ n ≤ hi}

instance (lo hi : Int) : DecidableEq (IntR lo hi) := Subtype.instDecidableEq

abbrev I8 := IntR (-128) 127
abbrev I16 := IntR (-32768) 32767
abbrev I32 := IntR (-2147483648) 2147483647
abbrev I64 := IntR (-9223372036854775808) 9223372036854775807
abbrev I128 := IntR (-170141183460469231731687303715884105728) 170141183460469231731687303715884105727
/-- isize is modelled at the 64-bit width. -/
abbrev ISize := I64
abbrev U8 := IntR 0 255
abbrev U16 := IntR 0 65535
abbrev U32 := IntR 0 4294967295
abbrev U64 := IntR 0 18446744073709551615
abbrev U128 := IntR 0 340282366920938463463374607431768211455
/-- usize is modelled at the 64-bit width. -/
abbrev USize64 := U64

/-- Modelled from the spec: integers encode to the matching wire number
(the encoder side of the EncodingRules, absent from src/). -/
def encodeIntR (lo hi : Int) (v : IntR lo hi) : Wire := .num v.val

/-- Modelled from the spec: integer decode rejects wire numbers outside the
declared width/signedness range with RangeOverflow (the decoder side of the
EncodingRules, absent from src/). -/
def decodeIntR (lo hi : Int) : Wire → Except Err (IntR lo hi)
  | .num n =>
      if h : lo ≤ n ∧ n ≤ hi then .ok ⟨n, h⟩ else .error .rangeOverflow
  | _ => .error .malformed

/-- Modelled from the spec: booleans encode to the wire boolean. -/
def encodeBool (b : Bool) : Wire := .bool b

/-- Modelled from the spec: boolean decode. -/
def decodeBool : Wire → Except Err Bool
  | .bool b => .ok b
  | _ => .error .malformed

/-- Modelled from the spec: a single Unicode scalar encodes as a one-scalar
wire string. -/
def encodeChar (c : Char) : Wire := .str (String.mk [c])

/-- Modelled from the spec: char decode succeeds exactly on a wire string made
of exactly one Unicode scalar value. -/
def decodeChar : Wire → Except Err Char
  | .str s =>
      match s.data with
      | [c] => .ok c
      | _ => .error .malformed
  | _ => .error .malformed

/-- Modelled from the spec: UTF-8 strings encode to the wire string. -/
def encodeString (s : String) : Wire := .str s

/-- Modelled from the spec: string decode. -/
def decodeString : Wire → Except Err String
  | .str s => .ok s
  | _ => .error .malformed

/-- Modelled from the spec: floating point values encode to the wire number;
float payloads are modelled as rationals. -/
def encodeFloat (q : Rat) : Wire := .fnum q

/-- Modelled from the spec: float decode. -/
def decodeFloat : Wire → Except Err Rat
  | .fnum q => .ok q
  | _ => .error .malformed

/-- Modelled from the spec: the unit type encodes as the fixed null sentinel. -/
def encodeUnit (_ : Unit) : Wire := .null

/-- Modelled from the spec: unit decode succeeds iff the wire value equals the
sentinel. -/
def decodeUnit : Wire → Except Err Unit
  | .null => .ok ()
  | _ => .error .malformed

section OrderedInsert

variable {α : Type} {β : Type} [LinearOrder α]

/-- Ordered insertion into a sorted duplicate-free list, modelling BTreeSet
insertion: an element equal to an existing one leaves the set unchanged. -/
def setInsert (x : α) : List α → List α
  | [] => [x]
  | y :: t =>
      if x < y then x :: y :: t
      else if x = y then y :: t
      else y :: setInsert x t

/-- Building a BTreeSet by inserting the elements of a list in order. -/
def setFromList (l : List α) : List α :=
  l.foldl (fun acc x => setInsert x acc) []

/-- Ordered insertion into a key-sorted association list, modelling BTreeMap
insertion: an entry with an existing key overwrites the old value. -/
def mapInsert (k : α) (v : β) : List (α × β) → List (α × β)
  | [] => [(k, v)]
  | (k₂, v₂) :: t =>
      if k < k₂ then (k, v) :: (k₂, v₂) :: t
      else if k = k₂ then (k, v) :: t
      else (k₂, v₂) :: mapInsert k v t

/-- Building a BTreeMap by inserting the entries of a list in order. -/
def mapFromList (l : List (α × β)) : List (α × β) :=
  l.foldl (fun acc p => mapInsert p.1 p.2 acc) []

theorem mem_setInsert (x z : α) (l : List α) :
    z ∈ setInsert x l ↔ z = x ∨ z ∈ l := by
  induction l with
  | nil => simp [setInsert]
  | cons y t ih =>
      by_cases h1 : x < y
      · simp [setInsert, h1]
      · by_cases h2 : x = y
        · subst h2; simp [setInsert, h1]
        · simp [setInsert, h1, h2, ih]
          tauto

theorem sorted_setInsert (x : α) (l : List α) (h : l.Sorted (· < ·)) :
    (setInsert x l).Sorted (· < ·) := by
  induction l with
  | nil => simp [setInsert]
  | cons y t ih =>
      rw [List.sorted_cons] at h
      by_cases h1 : x < y
      · rw [setInsert, if_pos h1, List.sorted_cons]
        refine ⟨?_, ?_⟩
        · intro b hb
          rcases List.mem_cons.mp hb with rfl | hb
          · exact h1
          · exact lt_trans h1 (h.1 b hb)
        · rw [List.sorted_cons]; exact h
      · by_cases h2 : x = y
        · rw [setInsert, if_neg h1, if_pos h2, List.sorted_cons]; exact h
        · rw [setInsert, if_neg h1, if_neg h2, List.sorted_cons]
          refine ⟨?_, ih h.2⟩
          intro b hb
          rcases (mem_setInsert x b t).mp hb with rfl | hb
          · exact lt_of_le_of_ne (not_lt.mp h1) (Ne.symm h2)
          · exact h.1 b hb

theorem sorted_setFold (l : List α) :
    ∀ acc : List α, acc.Sorted (· < ·) →
      (l.foldl (fun acc x => setInsert x acc) acc).Sorted (· < ·) := by
  induction l with
  | nil => intro acc h; simpa using h
  | cons x t ih =>
      intro acc h
      exact ih (setInsert x acc) (sorted_setInsert x acc h)

theorem sorted_setFromList (l : List α) : (setFromList l).Sorted (· < ·) :=
  sorted_setFold l [] (by simp)

theorem mem_setFold (l : List α) :
    ∀ (acc : List α) (z : α),
      z ∈ l.foldl (fun acc x => setInsert x acc) acc ↔ z ∈ acc ∨ z ∈ l := by
  induction l with
  | nil => intro acc z; simp
  | cons x t ih =>
      intro acc z
      rw [List.foldl_cons, ih (setInsert x acc) z, mem_setInsert]
      simp
      tauto

theorem mem_setFromList (l : List α) (z : α) :
    z ∈ setFromList l ↔ z ∈ l := by
  rw [setFromList, mem_setFold l [] z]
  simp

theorem setFromList_eq_of_mem_iff (l₁ l₂ : List α)
    (h : ∀ z, z ∈ l₁ ↔ z ∈ l₂) : setFromList l₁ = setFromList l₂ := by
  have s₁ := sorted_setFromList l₁
  have s₂ := sorted_setFromList l₂
  refine List.eq_of_perm_of_sorted ?_ s₁ s₂
  refine (List.perm_ext_iff_of_nodup s₁.nodup s₂.nodup).mpr ?_
  intro z
  rw [mem_setFromList, mem_setFromList]
  exact h z

theorem setFromList_sorted_fix (l : List α) (h : l.Sorted (· < ·)) :
    setFromList l = l := by
  refine List.eq_of_perm_of_sorted ?_ (sorted_setFromList l) h
  refine (List.perm_ext_iff_of_nodup (sorted_setFromList l).nodup h.nodup).mpr ?_
  intro z
  exact mem_setFromList l z

/-- Strict order on association-list entries by key, used for the canonical
map serialization order. -/
def KeyLt (p q : α × β) : Prop := p.1 < q.1

instance : IsAntisymm (α × β) (@KeyLt α β _) :=
  ⟨fun _ _ h h₂ => absurd (lt_trans h h₂) (lt_irrefl _)⟩

theorem keys_sorted_iff (l : List (α × β)) :
    (l.map Prod.fst).Sorted (· < ·) ↔ l.Sorted (@KeyLt α β _) :=
  List.pairwise_map

theorem mem_mapInsert (k : α) (v : β) (p : α × β) (l : List (α × β))
    (hp : p ∈ mapInsert k v l) : p = (k, v) ∨ p ∈ l := by
  induction l with
  | nil => simpa [mapInsert] using hp
  | cons q t ih =>
      by_cases h1 : k < q.1
      · rw [show q = (q.1, q.2) from rfl, mapInsert, if_pos h1] at hp
        simpa using hp
      · by_cases h2 : k = q.1
        · rw [show q = (q.1, q.2) from rfl, mapInsert, if_neg h1, if_pos h2] at hp
          rcases List.mem_cons.mp hp with rfl | hp
          · exact Or.inl rfl
          · exact Or.inr (List.mem_cons_of_mem q hp)
        · rw [show q = (q.1, q.2) from rfl, mapInsert, if_neg h1, if_neg h2] at hp
          rcases List.mem_cons.mp hp with rfl | hp
          · exact Or.inr (List.mem_cons_self q t)
          · rcases ih hp with rfl | hp
            · exact Or.inl rfl
            · exact Or.inr (List.mem_cons_of_mem q hp)

theorem sorted_mapInsert (k : α) (v : β) (l : List (α × β))
    (h : l.Sorted (@KeyLt α β _)) : (mapInsert k v l).Sorted (@KeyLt α β _) := by
  induction l with
  | nil => simp [mapInsert, List.sorted_singleton]
  | cons q t ih =>
      rw [List.sorted_cons] at h
      by_cases h1 : k < q.1
      · rw [show q = (q.1, q.2) from rfl, mapInsert, if_pos h1, List.sorted_cons]
        refine ⟨?_, ?_⟩
        · intro b hb
          rcases List.mem_cons.mp hb with rfl | hb
          · exact h1
          · exact lt_trans h1 (h.1 b hb)
        · rw [List.sorted_cons]; exact h
      · by_cases h2 : k = q.1
        · rw [show q = (q.1, q.2) from rfl, mapInsert, if_neg h1, if_pos h2, List.sorted_cons]
          refine ⟨?_, h.2⟩
          intro b hb
          show k < b.1
          rw [h2]
          exact h.1 b hb
        · rw [show q = (q.1, q.2) from rfl, mapInsert, if_neg h1, if_neg h2, List.sorted_cons]
          refine ⟨?_, ih h.2⟩
          intro b hb
          rcases mem_mapInsert k v b t hb with rfl | hb
          · exact lt_of_le_of_ne (not_lt.mp h1) (Ne.symm h2)
          · exact h.1 b hb

theorem mapInsert_perm (k : α) (v : β) (l : List (α × β))
    (h : k ∉ l.map Prod.fst) : List.Perm (mapInsert k v l) ((k, v) :: l) := by
  induction l with
  | nil => simp [mapInsert]
  | cons q t ih =>
      simp only [List.map_cons, List.mem_cons] at h
      push_neg at h
      by_cases h1 : k < q.1
      · rw [show q = (q.1, q.2) from rfl, mapInsert, if_pos h1]
      · rw [show q = (q.1, q.2) from rfl, mapInsert, if_neg h1, if_neg h.1]
        refine List.Perm.trans (List.Perm.cons (q.1, q.2) (ih h.2)) ?_
        exact List.Perm.swap (k, v) (q.1, q.2) t

theorem sorted_mapFold (l : List (α × β)) :
    ∀ acc : List (α × β), acc.Sorted (@KeyLt α β _) →
      (l.foldl (fun acc p => mapInsert p.1 p.2 acc) acc).Sorted (@KeyLt α β _) := by
  induction l with
  | nil => intro acc h; simpa using h
  | cons p t ih =>
      intro acc h
      exact ih (mapInsert p.1 p.2 acc) (sorted_mapInsert p.1 p.2 acc h)

theorem sorted_mapFromList (l : List (α × β)) :
    (mapFromList l).Sorted (@KeyLt α β _) :=
  sorted_mapFold l [] (by simp)

theorem keys_sorted_mapFromList (l : List (α × β)) :
    ((mapFromList l).map Prod.fst).Sorted (· < ·) :=
  (keys_sorted_iff (mapFromList l)).mpr (sorted_mapFromList l)

theorem mapFold_perm (l : List (α × β)) :
    ∀ acc : List (α × β), (((acc ++ l).map Prod.fst)).Nodup →
      List.Perm (l.foldl (fun acc p => mapInsert p.1 p.2 acc) acc) (acc ++ l) := by
  induction l with
  | nil => intro acc _; simp
  | cons p t ih =>
      intro acc h
      have hsplit : (acc ++ p :: t).map Prod.fst =
          acc.map Prod.fst ++ p.1 :: t.map Prod.fst := by simp
      rw [hsplit] at h
      have hperm : List.Perm (acc.map Prod.fst ++ p.1 :: t.map Prod.fst)
          (p.1 :: (acc.map Prod.fst ++ t.map Prod.fst)) := List.perm_middle
      have h₂ : (p.1 :: (acc.map Prod.fst ++ t.map Prod.fst)).Nodup := hperm.nodup h
      have hk : p.1 ∉ acc.map Prod.fst := by
        rw [List.nodup_cons] at h₂
        intro hc
        exact h₂.1 (List.mem_append_left _ hc)
      have hins : List.Perm (mapInsert p.1 p.2 acc) ((p.1, p.2) :: acc) := mapInsert_perm p.1 p.2 acc hk
      have hinskeys : List.Perm ((mapInsert p.1 p.2 acc).map Prod.fst) (p.1 :: acc.map Prod.fst) := by
        have := hins.map Prod.fst
        simpa using this
      have hnext : ((mapInsert p.1 p.2 acc ++ t).map Prod.fst).Nodup := by
        have : List.Perm ((mapInsert p.1 p.2 acc ++ t).map Prod.fst)
            (p.1 :: (acc.map Prod.fst ++ t.map Prod.fst)) := by
          rw [List.map_append]
          exact (hinskeys.append_right (t.map Prod.fst)).trans (by simp)
        exact this.nodup_iff.mpr h₂
      have hrec := ih (mapInsert p.1 p.2 acc) hnext
      rw [List.foldl_cons]
      refine hrec.trans ?_
      refine List.Perm.trans (hins.append_right t) ?_
      show List.Perm ((p.1, p.2) :: acc ++ t) (acc ++ p :: t)
      have : List.Perm (acc ++ p :: t) (p :: (acc ++ t)) := List.perm_middle
      exact this.symm

theorem mapFromList_perm (l : List (α × β)) (h : (l.map Prod.fst).Nodup) :
    List.Perm (mapFromList l) l := by
  have := mapFold_perm l [] (by simpa using h)
  simpa [mapFromList] using this

theorem mapFromList_eq_of_perm (l₁ l₂ : List (α × β)) (hp : List.Perm l₁ l₂)
    (h : (l₁.map Prod.fst).Nodup) : mapFromList l₁ = mapFromList l₂ := by
  have h₂ : (l₂.map Prod.fst).Nodup := (hp.map Prod.fst).nodup_iff.mp h
  have p₁ := mapFromList_perm l₁ h
  have p₂ := mapFromList_perm l₂ h₂
  exact List.eq_of_perm_of_sorted (p₁.trans (hp.trans p₂.symm))
    (sorted_mapFromList l₁) (sorted_mapFromList l₂)

theorem mapFromList_sorted_fix (l : List (α × β))
    (h : (l.map Prod.fst).Sorted (· < ·)) : mapFromList l = l := by
  have hnd : (l.map Prod.fst).Nodup := h.nodup
  exact List.eq_of_perm_of_sorted (mapFromList_perm l hnd)
    (sorted_mapFromList l) ((keys_sorted_iff l).mp h)

end OrderedInsert

theorem except_bind_ok {χ ψ : Type} (a : χ) (f : χ → Except Err ψ) :
    (Except.ok a : Except Err χ) >>= f = f a := rfl

theorem except_map_ok {χ ψ : Type} (a : χ) (f : χ → ψ) :
    (Except.ok a : Except Err χ).map f = .ok (f a) := rfl

/-- Modelled from the spec: element-wise decode of a wire list body (shared by
sequences, sets, maps and the recursive enum; the decoder implementation is
absent from src/). -/
def decodeListWith {χ : Type} (dec : Wire → Except Err χ) :
    List Wire → Except Err (List χ)
  | [] => .ok []
  | w :: t => do
      let x ← dec w
      let xs ← decodeListWith dec t
      .ok (x :: xs)

theorem decodeListWith_map {χ : Type} (dec : Wire → Except Err χ) (enc : χ → Wire)
    (h : ∀ x, dec (enc x) = .ok x) :
    ∀ l : List χ, decodeListWith dec (l.map enc) = .ok l := by
  intro l
  induction l with
  | nil => rfl
  | cons x t ih => simp [decodeListWith, h x, ih, except_bind_ok]

/-- A BTreeSet value: its contents listed in ascending order (the canonical
iteration order of the Rust type). -/
def BTreeSet (α : Type) [LinearOrder α] : Type := {l : List α // l.Sorted (· < ·)}

instance (α : Type) [LinearOrder α] : DecidableEq (BTreeSet α) :=
  Subtype.instDecidableEq

/-- Building a BTreeSet by inserting list elements in order. -/
def BTreeSet.ofList {α : Type} [LinearOrder α] (l : List α) : BTreeSet α :=
  ⟨setFromList l, sorted_setFromList l⟩

/-- A BTreeMap value: its entries listed in ascending key order (the canonical
iteration order of the Rust type). -/
def BTreeMap (α β : Type) [LinearOrder α] : Type :=
  {l : List (α × β) // (l.map Prod.fst).Sorted (· < ·)}

instance (α β : Type) [LinearOrder α] [DecidableEq α] [DecidableEq β] :
    DecidableEq (BTreeMap α β) := Subtype.instDecidableEq

/-- Building a BTreeMap by inserting list entries in order (a later entry with
an equal key overwrites the earlier one). -/
def BTreeMap.ofList {α β : Type} [LinearOrder α] (l : List (α × β)) : BTreeMap α β :=
  ⟨mapFromList l, (keys_sorted_iff (mapFromList l)).mpr (sorted_mapFromList l)⟩

/-- Modelled from the spec: a Set encodes as the ordered list of its elements
in ascending order. -/
def encodeSetWith {α : Type} [LinearOrder α] (enc : α → Wire) (s : BTreeSet α) : Wire :=
  .list (s.val.map enc)

/-- Modelled from the spec: Set decode rebuilds the set and fails with
DuplicateElement if two decoded elements compare equal. -/
def decodeSetWith {α : Type} [LinearOrder α] (dec : Wire → Except Err α) :
    Wire → Except Err (BTreeSet α)
  | .list ws => do
      let xs ← decodeListWith dec ws
      if xs.Nodup then .ok (BTreeSet.ofList xs) else .error .duplicateElement
  | _ => .error .malformed

/-- Modelled from the spec: a Map encodes as an ordered list of two-element
[key, value] lists, ascending by key (not as a native field-map, since keys
need not be strings). -/
def encodeMapWith {α β : Type} [LinearOrder α] (encK : α → Wire) (encV : β → Wire)
    (m : BTreeMap α β) : Wire :=
  .list (m.val.map (fun p => .list [encK p.1, encV p.2]))

/-- Modelled from the spec: decode of one [key, value] entry of a map. -/
def decodePairWith {α β : Type} (decK : Wire → Except Err α) (decV : Wire → Except Err β) :
    Wire → Except Err (α × β)
  | .list [kw, vw] => do
      let k ← decK kw
      let v ← decV vw
      .ok (k, v)
  | _ => .error .malformed

/-- Modelled from the spec: Map decode rebuilds the mapping and fails with
DuplicateKey on repeated keys. -/
def decodeMapWith {α β : Type} [LinearOrder α] (decK : Wire → Except Err α)
    (decV : Wire → Except Err β) : Wire → Except Err (BTreeMap α β)
  | .list ws => do
      let es ← decodeListWith (decodePairWith decK decV) ws
      if (es.map Prod.fst).Nodup then .ok (BTreeMap.ofList es)
      else .error .duplicateKey
  | _ => .error .malformed

theorem decodeSetWith_encode {α : Type} [LinearOrder α]
    (dec : Wire → Except Err α) (enc : α → Wire)
    (h : ∀ x, dec (enc x) = .ok x) (s : BTreeSet α) :
    decodeSetWith dec (encodeSetWith enc s) = .ok s := by
  obtain ⟨l, hl⟩ := s
  simp only [encodeSetWith, decodeSetWith]
  rw [decodeListWith_map dec enc h]
  simp only [except_bind_ok]
  rw [if_pos hl.nodup]
  simp [BTreeSet.ofList, setFromList_sorted_fix l hl]

theorem decodePairWith_encode {α β : Type}
    (decK : Wire → Except Err α) (encK : α → Wire)
    (decV : Wire → Except Err β) (encV : β → Wire)
    (hK : ∀ x, decK (encK x) = .ok x) (hV : ∀ x, decV (encV x) = .ok x)
    (p : α × β) :
    decodePairWith decK decV (.list [encK p.1, encV p.2]) = .ok p := by
  simp [decodePairWith, hK p.1, hV p.2, except_bind_ok]

theorem decodeMapWith_encode {α β : Type} [LinearOrder α]
    (decK : Wire → Except Err α) (encK : α → Wire)
    (decV : Wire → Except Err β) (encV : β → Wire)
    (hK : ∀ x, decK (encK x) = .ok x) (hV : ∀ x, decV (encV x) = .ok x)
    (m : BTreeMap α β) :
    decodeMapWith decK decV (encodeMapWith encK encV m) = .ok m := by
  obtain ⟨l, hl⟩ := m
  simp only [encodeMapWith, decodeMapWith]
  rw [decodeListWith_map (decodePairWith decK decV) (fun p => .list [encK p.1, encV p.2])
    (decodePairWith_encode decK encK decV encV hK hV)]
  simp only [except_bind_ok]
  rw [if_pos hl.nodup]
  simp [BTreeMap.ofList, mapFromList_sorted_fix l hl]

def encodeI8 : I8 → Wire := encodeIntR (-128) 127
def decodeI8 : Wire → Except Err I8 := decodeIntR (-128) 127
def encodeI16 : I16 → Wire := encodeIntR (-32768) 32767
def decodeI16 : Wire → Except Err I16 := decodeIntR (-32768) 32767
def encodeI32 : I32 → Wire := encodeIntR (-2147483648) 2147483647
def decodeI32 : Wire → Except Err I32 := decodeIntR (-2147483648) 2147483647
def encodeI64 : I64 → Wire := encodeIntR (-9223372036854775808) 9223372036854775807
def decodeI64 : Wire → Except Err I64 := decodeIntR (-9223372036854775808) 9223372036854775807
def encodeI128 : I128 → Wire :=
  encodeIntR (-170141183460469231731687303715884105728) 170141183460469231731687303715884105727
def decodeI128 : Wire → Except Err I128 :=
  decodeIntR (-170141183460469231731687303715884105728) 170141183460469231731687303715884105727
def encodeU8 : U8 → Wire := encodeIntR 0 255
def decodeU8 : Wire → Except Err U8 := decodeIntR 0 255
def encodeU16 : U16 → Wire := encodeIntR 0 65535
def decodeU16 : Wire → Except Err U16 := decodeIntR 0 65535
def encodeU32 : U32 → Wire := encodeIntR 0 4294967295
def decodeU32 : Wire → Except Err U32 := decodeIntR 0 4294967295
def encodeU64 : U64 → Wire := encodeIntR 0 18446744073709551615
def decodeU64 : Wire → Except Err U64 := decodeIntR 0 18446744073709551615
def encodeU128 : U128 → Wire := encodeIntR 0 340282366920938463463374607431768211455
def decodeU128 : Wire → Except Err U128 :=
  decodeIntR 0 340282366920938463463374607431768211455

theorem decodeIntR_encode (lo hi : Int) (v : IntR lo hi) :
    decodeIntR lo hi (encodeIntR lo hi v) = .ok v := by
  obtain ⟨n, hn⟩ := v
  simp [encodeIntR, decodeIntR, hn]

/-- Opaque UUID identifier (from the uuid crate), modelled by its canonical
textual form; Rust Ord on Uuid agrees with lexicographic order on that form. -/
structure Uuid where
  text : String
  deriving DecidableEq

instance : LinearOrder Uuid :=
  LinearOrder.lift' Uuid.text (fun a b h => by cases a; cases b; simpa using h)

/-- Modelled from the spec: a UUID encodes as its wire string form. -/
def encodeUuid (u : Uuid) : Wire := .str u.text

/-- Modelled from the spec: UUID decode. -/
def decodeUuid : Wire → Except Err Uuid
  | .str s => .ok ⟨s⟩
  | _ => .error .malformed

/-- Newtype from the source: distinct identity type wrapping a Uuid. -/
structure UserId where
  uuid : Uuid
  deriving DecidableEq

instance : LinearOrder UserId :=
  LinearOrder.lift' UserId.uuid (fun a b h => by cases a; cases b; simpa using h)

/-- Modelled from the spec: newtype encode is the inner encode, no wrapper. -/
def encodeUserId (u : UserId) : Wire := encodeUuid u.uuid

/-- Modelled from the spec: newtype decode is the inner decode, re-tagged at
the type level only. -/
def decodeUserId (w : Wire) : Except Err UserId := (decodeUuid w).map UserId.mk

/-- Newtype from the source: a bytes payload, distinct from a plain byte list. -/
structure Blob where
  bytes : List U8
  deriving DecidableEq

/-- Modelled from the spec: a byte vector encodes as a wire list of numbers. -/
def encodeByteList (l : List U8) : Wire := .list (l.map encodeU8)

/-- Modelled from the spec: byte vector decode (each element range-checked). -/
def decodeByteList : Wire → Except Err (List U8)
  | .list ws => decodeListWith decodeU8 ws
  | _ => .error .malformed

/-- Modelled from the spec: newtype encode is the inner encode, no wrapper. -/
def encodeBlob (b : Blob) : Wire := encodeByteList b.bytes

/-- Modelled from the spec: newtype decode is the inner decode, re-tagged. -/
def decodeBlob (w : Wire) : Except Err Blob := (decodeByteList w).map Blob.mk

/-- Generic newtype wrapper from the source. -/
structure Wrapped (T : Type) where
  inner : T

instance (T : Type) [DecidableEq T] : DecidableEq (Wrapped T) :=
  fun a b =>
    decidable_of_iff (a.inner = b.inner) (by cases a; cases b; simp)

/-- Modelled from the spec: generic newtype encode is the inner encode. -/
def encodeWrapped {T : Type} (enc : T → Wire) (w : Wrapped T) : Wire := enc w.inner

/-- Modelled from the spec: generic newtype decode is the inner decode,
re-tagged at the type level only. -/
def decodeWrapped {T : Type} (dec : Wire → Except Err T) (w : Wire) :
    Except Err (Wrapped T) := (dec w).map Wrapped.mk

/-- Unit struct from the source: carries only identity. -/
structure UnitStruct where
  deriving DecidableEq

/-- Modelled from the spec: a unit struct encodes as the null sentinel. -/
def encodeUnitStruct (_ : UnitStruct) : Wire := .null

/-- Modelled from the spec: unit struct decode succeeds iff the wire value is
the sentinel. -/
def decodeUnitStruct : Wire → Except Err UnitStruct
  | .null => .ok ⟨⟩
  | _ => .error .malformed

/-- Tuple struct from the source: two positional i32 fields (arity 2). -/
structure Pair where
  a : I32
  b : I32
  deriving DecidableEq

/-- Modelled from the spec: a tuple struct encodes as an ordered list of
exactly its positional field values. -/
def encodePair (p : Pair) : Wire := .list [encodeI32 p.a, encodeI32 p.b]

/-- Modelled from the spec: tuple struct decode fails with ArityMismatch when
the wire list length differs from the declared arity. -/
def decodePair : Wire → Except Err Pair
  | .list [aw, bw] => do
      let a ← decodeI32 aw
      let b ← decodeI32 bw
      .ok ⟨a, b⟩
  | .list _ => .error .arityMismatch
  | _ => .error .malformed

/-- Error enum from the source: unit variants and a payload-carrying variant;
externally tagged (no serde tag attribute on the declaration). -/
inductive ErrorCode : Type where
  | notFound : ErrorCode
  | permissionDenied : ErrorCode
  | invalid (s : String) : ErrorCode
  deriving DecidableEq

/-- Modelled from the spec: externally-tagged enum encode, bare variant-name
string for unit variants, single-entry field-map otherwise. -/
def encodeErrorCode : ErrorCode → Wire
  | .notFound => .str "NotFound"
  | .permissionDenied => .str "PermissionDenied"
  | .invalid s => .map [("Invalid", .str s)]

/-- Modelled from the spec: externally-tagged enum decode; an unknown
key/name fails with UnknownVariant. -/
def decodeErrorCode : Wire → Except Err ErrorCode
  | .str s =>
      if s = "NotFound" then .ok .notFound
      else if s = "PermissionDenied" then .ok .permissionDenied
      else .error .unknownVariant
  | .map [(k, w)] =>
      if k = "Invalid" then (decodeString w).map ErrorCode.invalid
      else .error .unknownVariant
  | _ => .error .malformed

/-- Result of String or ErrorCode from the source field
outcome_string_or_error_code, encoded as a two-variant externally-tagged
enum with the reserved names Ok and Err. -/
inductive Outcome : Type where
  | ok (s : String) : Outcome
  | err (e : ErrorCode) : Outcome
  deriving DecidableEq

/-- Modelled from the spec: Result encodes as a two-variant enum. -/
def encodeOutcome : Outcome → Wire
  | .ok s => .map [("Ok", .str s)]
  | .err e => .map [("Err", encodeErrorCode e)]

/-- Modelled from the spec: Result decode. -/
def decodeOutcome : Wire → Except Err Outcome
  | .map [(k, w)] =>
      if k = "Ok" then (decodeString w).map Outcome.ok
      else if k = "Err" then (decodeErrorCode w).map Outcome.err
      else .error .unknownVariant
  | _ => .error .malformed

/-- Modelled from the spec: the internally-tagged envelope with the per-enum
field names "variant" and "data"; the content field is omitted entirely for an
absent payload. -/
def envelope (tag : String) : Option Wire → Wire
  | none => .map [("variant", .str tag)]
  | some c => .map [("variant", .str tag), ("data", c)]

/-- Modelled from the spec: decode-side normalization that treats an explicit
null content field as equivalent to an omitted one. -/
def nullNorm : Wire → Option Wire
  | .null => none
  | w => some w

/-- Modelled from the spec: reading the internally-tagged envelope back,
accepting an omitted content field or an explicit null as the absent payload. -/
def parseEnvelope : Wire → Option (String × Option Wire)
  | .map [("variant", .str t)] => some (t, none)
  | .map [("variant", .str t), ("data", c)] => some (t, nullNorm c)
  | _ => none

/-- Internally-tagged enum from the source, with tag field "variant" and
content field "data". -/
inductive Shape : Type where
  | unit : Shape
  | circle (r : Rat) : Shape
  | rect (w h : Rat) : Shape
  | named (s : String) : Shape
  deriving DecidableEq

/-- Modelled from the spec: internally-tagged envelope encode for Shape; the
unit variant omits the content field, a struct variant carries a field-map
payload, a tuple variant an ordered-list payload, a newtype variant the bare
inner payload. -/
def encodeShape : Shape → Wire
  | .unit => envelope "Unit" none
  | .circle r => envelope "Circle" (some (.map [("r", .fnum r)]))
  | .rect a b => envelope "Rect" (some (.list [.fnum a, .fnum b]))
  | .named s => envelope "Named" (some (.str s))

/-- Modelled from the spec: payload decode for one Shape variant, given the
tag and the normalized content field. -/
def shapePayload (t : String) (c : Option Wire) : Except Err Shape :=
  if t = "Unit" then
    match c with
    | none => .ok .unit
    | some _ => .error .malformed
  else if t = "Circle" then
    match c with
    | some (.map [("r", .fnum r)]) => .ok (.circle r)
    | _ => .error .malformed
  else if t = "Rect" then
    match c with
    | some (.list [.fnum a, .fnum b]) => .ok (.rect a b)
    | _ => .error .malformed
  else if t = "Named" then
    match c with
    | some (.str s) => .ok (.named s)
    | _ => .error .malformed
  else .error .unknownVariant

/-- Modelled from the spec: internally-tagged envelope decode for Shape. -/
def decodeShape (w : Wire) : Except Err Shape :=
  match parseEnvelope w with
  | none => .error .malformed
  | some (t, c) => shapePayload t c

theorem decodeShape_encode (s : Shape) : decodeShape (encodeShape s) = .ok s := by
  cases s <;> simp [encodeShape, decodeShape, envelope, parseEnvelope, nullNorm, shapePayload]

/-- Struct from the source with two Option-typed fields. -/
structure Status where
  ok : Bool
  code : Option U32
  note : Option String
  deriving DecidableEq

/-- Modelled from the spec: an optional struct field contributes its field-map
entry when present and is omitted entirely (not encoded as null) when absent. -/
def optField {χ : Type} (name : String) (enc : χ → Wire) : Option χ → List (String × Wire)
  | none => []
  | some x => [(name, enc x)]

/-- Modelled from the spec: the ordered field-map entries of a Status value. -/
def statusFields (s : Status) : List (String × Wire) :=
  ("ok", .bool s.ok) :: (optField "code" encodeU32 s.code ++ optField "note" encodeString s.note)

/-- Modelled from the spec: a struct encodes as a field-map. -/
def encodeStatus (s : Status) : Wire := .map (statusFields s)

/-- Modelled from the spec: consuming one required field from the ordered
field-map entries. -/
def takeField {χ : Type} (name : String) (dec : Wire → Except Err χ) :
    List (String × Wire) → Except Err (χ × List (String × Wire))
  | (k, w) :: rest =>
      if k = name then do
        let x ← dec w
        .ok (x, rest)
      else .error .malformed
  | [] => .error .malformed

/-- Modelled from the spec: consuming one optional field from the ordered
field-map entries; a missing field decodes as absent, a present field as Some
of the decoded value. -/
def takeOptField {χ : Type} (name : String) (dec : Wire → Except Err χ) :
    List (String × Wire) → Except Err (Option χ × List (String × Wire))
  | [] => .ok (none, [])
  | (k, w) :: rest =>
      if k = name then do
        let x ← dec w
        .ok (some x, rest)
      else .ok (none, (k, w) :: rest)

/-- Modelled from the spec: Status decode over its field-map entries. -/
def decodeStatusFields (fs : List (String × Wire)) : Except Err Status := do
  let (b, fs) ← takeField "ok" decodeBool fs
  let (c, fs) ← takeOptField "code" decodeU32 fs
  let (n, fs) ← takeOptField "note" decodeString fs
  match fs with
  | [] => .ok ⟨b, c, n⟩
  | _ => .error .malformed

/-- Modelled from the spec: Status decode. -/
def decodeStatus : Wire → Except Err Status
  | .map fs => decodeStatusFields fs
  | _ => .error .malformed

theorem takeField_cons {χ : Type} (name : String) (dec : Wire → Except Err χ)
    (w : Wire) (x : χ) (rest : List (String × Wire)) (h : dec w = .ok x) :
    takeField name dec ((name, w) :: rest) = .ok (x, rest) := by
  simp [takeField, h, except_bind_ok]

theorem takeOptField_hit {χ : Type} (name : String) (dec : Wire → Except Err χ)
    (w : Wire) (x : χ) (rest : List (String × Wire)) (h : dec w = .ok x) :
    takeOptField name dec ((name, w) :: rest) = .ok (some x, rest) := by
  simp [takeOptField, h, except_bind_ok]

theorem takeOptField_miss {χ : Type} (name k : String) (dec : Wire → Except Err χ)
    (w : Wire) (rest : List (String × Wire)) (h : k ≠ name) :
    takeOptField name dec ((k, w) :: rest) = .ok (none, (k, w) :: rest) := by
  simp [takeOptField, h]

theorem takeOptField_nil {χ : Type} (name : String) (dec : Wire → Except Err χ) :
    takeOptField name dec [] = .ok (none, []) := rfl

theorem decodeStatus_encode (s : Status) : decodeStatus (encodeStatus s) = .ok s := by
  obtain ⟨b, c, n⟩ := s
  cases c <;> cases n <;>
    simp [encodeStatus, statusFields, optField, decodeStatus, decodeStatusFields,
      takeField_cons, takeOptField_hit, takeOptField_miss, takeOptField_nil,
      decodeBool, decodeIntR_encode, encodeU32, decodeU32, encodeString, decodeString,
      except_bind_ok]

theorem decodeString_encode (s : String) : decodeString (encodeString s) = .ok s := rfl

theorem nullNorm_some (x c : Wire) (h : nullNorm x = some c) : c = x := by
  cases x <;> simp_all [nullNorm]

theorem parseEnvelope_payload_size (w : Wire) (t : String) (c : Wire)
    (h : parseEnvelope w = some (t, some c)) : sizeOf c < sizeOf w := by
  unfold parseEnvelope at h
  split at h
  · simp at h
  · simp only [Option.some.injEq, Prod.mk.injEq] at h
    obtain ⟨rfl, h₂⟩ := h
    have := nullNorm_some _ _ h₂
    subst this
    simp
    omega
  · exact absurd h (by simp)

/-- Recursive internally-tagged enum from the source, with tag field "variant"
and content field "data"; the Batch variant nests messages, the Kv variant
carries a string map. -/
inductive Message : Type where
  | ping : Message
  | text (s : String) : Message
  | batch (l : List Message) : Message
  | kv (m : BTreeMap String String) : Message

mutual

/-- Modelled from the spec: internally-tagged envelope encode for Message. -/
def encodeMessage : Message → Wire
  | .ping => envelope "Ping" none
  | .text s => envelope "Text" (some (.str s))
  | .batch l => envelope "Batch" (some (.list (encodeMessageList l)))
  | .kv m => envelope "Kv" (some (encodeMapWith encodeString encodeString m))

/-- Modelled from the spec: element-wise encode of a batch payload. -/
def encodeMessageList : List Message → List Wire
  | [] => []
  | m :: t => encodeMessage m :: encodeMessageList t

end

mutual

/-- Modelled from the spec: internally-tagged envelope decode for Message,
accepting an omitted or explicitly-null content field as the absent payload. -/
def decodeMessage (w : Wire) : Except Err Message :=
  match hp : parseEnvelope w with
  | none => .error .malformed
  | some (t, none) => if t = "Ping" then .ok .ping else .error .malformed
  | some (t, some c) =>
      if t = "Ping" then .error .malformed
      else if t = "Text" then
        match c with
        | .str s => .ok (.text s)
        | _ => .error .malformed
      else if t = "Batch" then
        match hc : c with
        | .list ws => (decodeMessageList ws).map Message.batch
        | _ => .error .malformed
      else if t = "Kv" then (decodeMapWith decodeString decodeString c).map Message.kv
      else .error .unknownVariant
termination_by sizeOf w
decreasing_by
  have hlt := parseEnvelope_payload_size w t (Wire.list ws) (hc ▸ hp)
  simp at hlt
  simp
  omega

/-- Modelled from the spec: element-wise decode of a batch payload. -/
def decodeMessageList : List Wire → Except Err (List Message)
  | [] => .ok []
  | w :: t => do
      let m ← decodeMessage w
      let ms ← decodeMessageList t
      .ok (m :: ms)
termination_by l => sizeOf l
decreasing_by
  all_goals simp
  all_goals omega

end

theorem decodeMessageList_encode (l : List Message)
    (ih : ∀ m ∈ l, decodeMessage (encodeMessage m) = .ok m) :
    decodeMessageList (encodeMessageList l) = .ok l := by
  induction l with
  | nil => simp [encodeMessageList, decodeMessageList]
  | cons m t iht =>
      simp [encodeMessageList, decodeMessageList, ih m (List.mem_cons_self m t),
        iht (fun x hx => ih x (List.mem_cons_of_mem m hx)), except_bind_ok]

theorem decodeStringMap_encode (m : BTreeMap String String) :
    decodeMapWith decodeString decodeString
      (Wire.list (m.val.map (fun p => Wire.list [encodeString p.1, encodeString p.2]))) =
      .ok m := by
  have := decodeMapWith_encode decodeString encodeString decodeString encodeString
    decodeString_encode decodeString_encode m
  simpa [encodeMapWith] using this

theorem decodeMessage_encode (m : Message) :
    decodeMessage (encodeMessage m) = .ok m := by
  match m with
  | .ping => simp [encodeMessage, decodeMessage, envelope, parseEnvelope, nullNorm]
  | .text s => simp [encodeMessage, decodeMessage, envelope, parseEnvelope, nullNorm]
  | .batch l =>
      have ih : ∀ x ∈ l, decodeMessage (encodeMessage x) = .ok x := by
        intro x hx
        exact decodeMessage_encode x
      simp [encodeMessage, decodeMessage, envelope, parseEnvelope, nullNorm,
        decodeMessageList_encode l ih, except_map_ok]
  | .kv mm =>
      simp [encodeMessage, decodeMessage, envelope, parseEnvelope, nullNorm,
        encodeMapWith, except_map_ok, decodeStringMap_encode mm]
termination_by sizeOf m
decreasing_by
  have := List.sizeOf_lt_of_mem hx
  simp
  omega

theorem decodeBool_encode (b : Bool) : decodeBool (encodeBool b) = .ok b := rfl

theorem decodeChar_encode (c : Char) : decodeChar (encodeChar c) = .ok c := rfl

theorem decodeFloat_encode (q : Rat) : decodeFloat (encodeFloat q) = .ok q := rfl

theorem decodeUnit_encode (u : Unit) : decodeUnit (encodeUnit u) = .ok u := rfl

theorem decodeUnitStruct_encode (u : UnitStruct) :
    decodeUnitStruct (encodeUnitStruct u) = .ok u := by
  cases u; rfl

theorem decodeUuid_encode (u : Uuid) : decodeUuid (encodeUuid u) = .ok u := by
  cases u; rfl

theorem decodeUserId_encode (u : UserId) : decodeUserId (encodeUserId u) = .ok u := by
  cases u with
  | mk uu => cases uu; rfl

theorem decodeByteList_encode (l : List U8) :
    decodeByteList (encodeByteList l) = .ok l := by
  simp [encodeByteList, decodeByteList,
    decodeListWith_map decodeU8 encodeU8 (decodeIntR_encode 0 255) l]

theorem decodeBlob_encode (b : Blob) : decodeBlob (encodeBlob b) = .ok b := by
  cases b with
  | mk l => simp [encodeBlob, decodeBlob, decodeByteList_encode l, except_map_ok]

theorem decodePair_encode (p : Pair) : decodePair (encodePair p) = .ok p := by
  obtain ⟨a, b⟩ := p
  simp [encodePair, decodePair, encodeI32, decodeI32, decodeIntR_encode, except_bind_ok]

theorem decodeWrapped_encode {T : Type} (dec : Wire → Except Err T) (enc : T → Wire)
    (h : ∀ x, dec (enc x) = .ok x) (w : Wrapped T) :
    decodeWrapped dec (encodeWrapped enc w) = .ok w := by
  cases w with
  | mk x => simp [encodeWrapped, decodeWrapped, h x, except_map_ok]

theorem decodeErrorCode_encode (e : ErrorCode) :
    decodeErrorCode (encodeErrorCode e) = .ok e := by
  cases e <;> simp [encodeErrorCode, decodeErrorCode, decodeString, except_map_ok]

theorem decodeOutcome_encode (o : Outcome) :
    decodeOutcome (encodeOutcome o) = .ok o := by
  cases o <;>
    simp [encodeOutcome, decodeOutcome, decodeString, decodeErrorCode_encode, except_map_ok]

/-- Modelled from the spec: a Sequence encodes as an ordered wire list. -/
def encodeStringList (l : List String) : Wire := .list (l.map encodeString)

/-- Modelled from the spec: Sequence decode. -/
def decodeStringList : Wire → Except Err (List String)
  | .list ws => decodeListWith decodeString ws
  | _ => .error .malformed

theorem decodeStringList_encode (l : List String) :
    decodeStringList (encodeStringList l) = .ok l := by
  simp [encodeStringList, decodeStringList,
    decodeListWith_map decodeString encodeString decodeString_encode l]

/-- Modelled from the spec: a tuple encodes as an ordered list of exactly its
component values in order. -/
def encodeMixedTuple (p : I32 × String × Bool) : Wire :=
  .list [encodeI32 p.1, encodeString p.2.1, encodeBool p.2.2]

/-- Modelled from the spec: tuple decode consumes exactly the declared number
of positional values. -/
def decodeMixedTuple : Wire → Except Err (I32 × String × Bool)
  | .list [aw, bw, cw] => do
      let a ← decodeI32 aw
      let b ← decodeString bw
      let c ← decodeBool cw
      .ok (a, b, c)
  | .list _ => .error .arityMismatch
  | _ => .error .malformed

theorem decodeMixedTuple_encode (p : I32 × String × Bool) :
    decodeMixedTuple (encodeMixedTuple p) = .ok p := by
  obtain ⟨a, b, c⟩ := p
  simp [encodeMixedTuple, decodeMixedTuple, encodeI32, decodeI32, decodeIntR_encode,
    decodeString_encode, decodeBool_encode, encodeString, decodeString, encodeBool,
    decodeBool, except_bind_ok]

/-- The fixed array [u16; 3] from the source: exactly three elements. -/
def U16Array3 : Type := {l : List U16 // l.length = 3}

instance : DecidableEq U16Array3 := Subtype.instDecidableEq

/-- Modelled from the spec: a fixed array encodes as an ordered list of exactly
its declared number of elements. -/
def encodeU16Array3 (a : U16Array3) : Wire := .list (a.val.map encodeU16)

/-- Modelled from the spec: fixed array decode fails with LengthMismatch when
the wire list length differs from the declared arity, before looking at any
element. -/
def decodeU16Array3 : Wire → Except Err U16Array3
  | .list [aw, bw, cw] => do
      let a ← decodeU16 aw
      let b ← decodeU16 bw
      let c ← decodeU16 cw
      .ok ⟨[a, b, c], rfl⟩
  | .list _ => .error .lengthMismatch
  | _ => .error .malformed

theorem decodeU16Array3_encode (v : U16Array3) :
    decodeU16Array3 (encodeU16Array3 v) = .ok v := by
  obtain ⟨l, hl⟩ := v
  rcases List.length_eq_three.mp hl with ⟨a, b, c, rfl⟩
  simp [encodeU16Array3, decodeU16Array3, encodeU16, decodeU16, decodeIntR_encode,
    except_bind_ok]

def encodeStringSet : BTreeSet String → Wire := encodeSetWith encodeString

def decodeStringSet : Wire → Except Err (BTreeSet String) := decodeSetWith decodeString

theorem decodeStringSet_encode (s : BTreeSet String) :
    decodeStringSet (encodeStringSet s) = .ok s :=
  decodeSetWith_encode decodeString encodeString decodeString_encode s

def encodeStringU32Map : BTreeMap String U32 → Wire := encodeMapWith encodeString encodeU32

def decodeStringU32Map : Wire → Except Err (BTreeMap String U32) :=
  decodeMapWith decodeString decodeU32

theorem decodeStringU32Map_encode (m : BTreeMap String U32) :
    decodeStringU32Map (encodeStringU32Map m) = .ok m :=
  decodeMapWith_encode decodeString encodeString decodeU32 encodeU32
    decodeString_encode (decodeIntR_encode 0 4294967295) m

def encodeUserIdI64Map : BTreeMap UserId I64 → Wire := encodeMapWith encodeUserId encodeI64

def decodeUserIdI64Map : Wire → Except Err (BTreeMap UserId I64) :=
  decodeMapWith decodeUserId decodeI64

theorem decodeUserIdI64Map_encode (m : BTreeMap UserId I64) :
    decodeUserIdI64Map (encodeUserIdI64Map m) = .ok m :=
  decodeMapWith_encode decodeUserId encodeUserId decodeI64 encodeI64
    decodeUserId_encode (decodeIntR_encode (-9223372036854775808) 9223372036854775807) m

/-- The coverage specimen from the source: one record instantiating every
supported shape, with the declared field order. -/
structure AllTypes where
  bool_value : Bool
  char_value : Char
  string_value : String
  i8_value : I8
  i16_value : I16
  i32_value : I32
  i64_value : I64
  i128_value : I128
  isize_value : ISize
  u8_value : U8
  u16_value : U16
  u32_value : U32
  u64_value : U64
  u128_value : U128
  usize_value : USize64
  f32_value : Rat
  f64_value : Rat
  maybe_i64_value : Option I64
  outcome_string_or_error_code : Outcome
  string_vector : List String
  mixed_tuple : I32 × String × Bool
  u16_array_len_3 : U16Array3
  string_set : BTreeSet String
  string_to_u32_map : BTreeMap String U32
  user_id_to_i64_map : BTreeMap UserId I64
  user_id : UserId
  blob_bytes : Blob
  wrapped_pair : Wrapped Pair
  shape : Shape
  message : Message
  status : Status
  unit_value : Unit
  unit_struct_value : UnitStruct

/-- Modelled from the spec: the ordered field-map entries of an AllTypes
value, fields in declared order; the absent optional field is omitted. -/
def allTypesFields (v : AllTypes) : List (String × Wire) :=
  ("bool_value", encodeBool v.bool_value) ::
  ("char_value", encodeChar v.char_value) ::
  ("string_value", encodeString v.string_value) ::
  ("i8_value", encodeI8 v.i8_value) ::
  ("i16_value", encodeI16 v.i16_value) ::
  ("i32_value", encodeI32 v.i32_value) ::
  ("i64_value", encodeI64 v.i64_value) ::
  ("i128_value", encodeI128 v.i128_value) ::
  ("isize_value", encodeI64 v.isize_value) ::
  ("u8_value", encodeU8 v.u8_value) ::
  ("u16_value", encodeU16 v.u16_value) ::
  ("u32_value", encodeU32 v.u32_value) ::
  ("u64_value", encodeU64 v.u64_value) ::
  ("u128_value", encodeU128 v.u128_value) ::
  ("usize_value", encodeU64 v.usize_value) ::
  ("f32_value", encodeFloat v.f32_value) ::
  ("f64_value", encodeFloat v.f64_value) ::
  (optField "maybe_i64_value" encodeI64 v.maybe_i64_value ++
    ("outcome_string_or_error_code", encodeOutcome v.outcome_string_or_error_code) ::
    ("string_vector", encodeStringList v.string_vector) ::
    ("mixed_tuple", encodeMixedTuple v.mixed_tuple) ::
    ("u16_array_len_3", encodeU16Array3 v.u16_array_len_3) ::
    ("string_set", encodeStringSet v.string_set) ::
    ("string_to_u32_map", encodeStringU32Map v.string_to_u32_map) ::
    ("user_id_to_i64_map", encodeUserIdI64Map v.user_id_to_i64_map) ::
    ("user_id", encodeUserId v.user_id) ::
    ("blob_bytes", encodeBlob v.blob_bytes) ::
    ("wrapped_pair", encodeWrapped encodePair v.wrapped_pair) ::
    ("shape", encodeShape v.shape) ::
    ("message", encodeMessage v.message) ::
    ("status", encodeStatus v.status) ::
    ("unit_value", encodeUnit v.unit_value) ::
    ("unit_struct_value", encodeUnitStruct v.unit_struct_value) :: [])

/-- Modelled from the spec: the specimen struct encodes as a field-map. -/
def encodeAllTypes (v : AllTypes) : Wire := .map (allTypesFields v)

/-- Modelled from the spec: AllTypes decode over its field-map entries, in
declared field order, treating a missing optional field as absent. -/
theorem takeField_bind {χ ψ : Type} (name : String) (dec : Wire → Except Err χ)
    (w : Wire) (x : χ) (rest : List (String × Wire))
    (f : χ × List (String × Wire) → Except Err ψ) (h : dec w = .ok x) :
    takeField name dec ((name, w) :: rest) >>= f = f (x, rest) := by
  rw [takeField_cons name dec w x rest h]
  rfl

theorem takeOptField_bind_hit {χ ψ : Type} (name : String) (dec : Wire → Except Err χ)
    (w : Wire) (x : χ) (rest : List (String × Wire))
    (f : Option χ × List (String × Wire) → Except Err ψ) (h : dec w = .ok x) :
    takeOptField name dec ((name, w) :: rest) >>= f = f (some x, rest) := by
  rw [takeOptField_hit name dec w x rest h]
  rfl

theorem takeOptField_bind_miss {χ ψ : Type} (name k : String) (dec : Wire → Except Err χ)
    (w : Wire) (rest : List (String × Wire))
    (f : Option χ × List (String × Wire) → Except Err ψ) (h : k ≠ name) :
    takeOptField name dec ((k, w) :: rest) >>= f = f (none, (k, w) :: rest) := by
  rw [takeOptField_miss name k dec w rest h]
  rfl

theorem decodeI8_encode (v : I8) : decodeI8 (encodeI8 v) = .ok v := decodeIntR_encode _ _ v
theorem decodeI16_encode (v : I16) : decodeI16 (encodeI16 v) = .ok v := decodeIntR_encode _ _ v
theorem decodeI32_encode (v : I32) : decodeI32 (encodeI32 v) = .ok v := decodeIntR_encode _ _ v
theorem decodeI64_encode (v : I64) : decodeI64 (encodeI64 v) = .ok v := decodeIntR_encode _ _ v
theorem decodeI128_encode (v : I128) : decodeI128 (encodeI128 v) = .ok v := decodeIntR_encode _ _ v
theorem decodeU8_encode (v : U8) : decodeU8 (encodeU8 v) = .ok v := decodeIntR_encode _ _ v
theorem decodeU16_encode (v : U16) : decodeU16 (encodeU16 v) = .ok v := decodeIntR_encode _ _ v
theorem decodeU32_encode (v : U32) : decodeU32 (encodeU32 v) = .ok v := decodeIntR_encode _ _ v
theorem decodeU64_encode (v : U64) : decodeU64 (encodeU64 v) = .ok v := decodeIntR_encode _ _ v
theorem decodeU128_encode (v : U128) : decodeU128 (encodeU128 v) = .ok v := decodeIntR_encode _ _ v

/-- Modelled from the spec: AllTypes decode over its field-map entries, in
declared field order, treating a missing optional field as absent. -/
def decodeAllTypesFields (fs0 : List (String × Wire)) : Except Err AllTypes :=
  takeField "bool_value" decodeBool fs0 >>= fun r1 =>
  takeField "char_value" decodeChar r1.2 >>= fun r2 =>
  takeField "string_value" decodeString r2.2 >>= fun r3 =>
  takeField "i8_value" decodeI8 r3.2 >>= fun r4 =>
  takeField "i16_value" decodeI16 r4.2 >>= fun r5 =>
  takeField "i32_value" decodeI32 r5.2 >>= fun r6 =>
  takeField "i64_value" decodeI64 r6.2 >>= fun r7 =>
  takeField "i128_value" decodeI128 r7.2 >>= fun r8 =>
  takeField "isize_value" decodeI64 r8.2 >>= fun r9 =>
  takeField "u8_value" decodeU8 r9.2 >>= fun r10 =>
  takeField "u16_value" decodeU16 r10.2 >>= fun r11 =>
  takeField "u32_value" decodeU32 r11.2 >>= fun r12 =>
  takeField "u64_value" decodeU64 r12.2 >>= fun r13 =>
  takeField "u128_value" decodeU128 r13.2 >>= fun r14 =>
  takeField "usize_value" decodeU64 r14.2 >>= fun r15 =>
  takeField "f32_value" decodeFloat r15.2 >>= fun r16 =>
  takeField "f64_value" decodeFloat r16.2 >>= fun r17 =>
  takeOptField "maybe_i64_value" decodeI64 r17.2 >>= fun r18 =>
  takeField "outcome_string_or_error_code" decodeOutcome r18.2 >>= fun r19 =>
  takeField "string_vector" decodeStringList r19.2 >>= fun r20 =>
  takeField "mixed_tuple" decodeMixedTuple r20.2 >>= fun r21 =>
  takeField "u16_array_len_3" decodeU16Array3 r21.2 >>= fun r22 =>
  takeField "string_set" decodeStringSet r22.2 >>= fun r23 =>
  takeField "string_to_u32_map" decodeStringU32Map r23.2 >>= fun r24 =>
  takeField "user_id_to_i64_map" decodeUserIdI64Map r24.2 >>= fun r25 =>
  takeField "user_id" decodeUserId r25.2 >>= fun r26 =>
  takeField "blob_bytes" decodeBlob r26.2 >>= fun r27 =>
  takeField "wrapped_pair" (decodeWrapped decodePair) r27.2 >>= fun r28 =>
  takeField "shape" decodeShape r28.2 >>= fun r29 =>
  takeField "message" decodeMessage r29.2 >>= fun r30 =>
  takeField "status" decodeStatus r30.2 >>= fun r31 =>
  takeField "unit_value" decodeUnit r31.2 >>= fun r32 =>
  takeField "unit_struct_value" decodeUnitStruct r32.2 >>= fun r33 =>
  match r33.2 with
  | [] => .ok ⟨r1.1, r2.1, r3.1, r4.1, r5.1, r6.1, r7.1, r8.1, r9.1, r10.1, r11.1, r12.1, r13.1, r14.1, r15.1, r16.1, r17.1, r18.1, r19.1, r20.1, r21.1, r22.1, r23.1, r24.1, r25.1, r26.1, r27.1, r28.1, r29.1, r30.1, r31.1, r32.1, r33.1⟩
  | _ => .error .malformed

/-- Modelled from the spec: AllTypes decode. -/
def decodeAllTypes : Wire → Except Err AllTypes
  | .map fs => decodeAllTypesFields fs
  | _ => .error .malformed

theorem decodeAllTypes_encode (v : AllTypes) :
    decodeAllTypes (encodeAllTypes v) = .ok v := by
  obtain ⟨x1, x2, x3, x4, x5, x6, x7, x8, x9, x10, x11, x12, x13, x14, x15,
    x16, x17, x18, x19, x20, x21, x22, x23, x24, x25, x26, x27, x28, x29, x30,
    x31, x32, x33⟩ := v
  cases x18 with
  | none =>
    dsimp only [encodeAllTypes, allTypesFields, optField, decodeAllTypes, decodeAllTypesFields,
      List.nil_append, List.cons_append]
    rw [takeField_bind _ _ _ _ _ _ (decodeBool_encode x1)]
    dsimp only
    rw [takeField_bind _ _ _ _ _ _ (decodeChar_encode x2)]
    dsimp only
    rw [takeField_bind _ _ _ _ _ _ (decodeString_encode x3)]
    dsimp only
    rw [takeField_bind _ _ _ _ _ _ (decodeI8_encode x4)]
    dsimp only
    rw [takeField_bind _ _ _ _ _ _ (decodeI16_encode x5)]
    dsimp only
    rw [takeField_bind _ _ _ _ _ _ (decodeI32_encode x6)]
    dsimp only
    rw [takeField_bind _ _ _ _ _ _ (decodeI64_encode x7)]
    dsimp only
    rw [takeField_bind _ _ _ _ _ _ (decodeI128_encode x8)]
    dsimp only
    rw [takeField_bind _ _ _ _ _ _ (decodeI64_encode x9)]
    dsimp only
    rw [takeField_bind _ _ _ _ _ _ (decodeU8_encode x10)]
    dsimp only
    rw [takeField_bind _ _ _ _ _ _ (decodeU16_encode x11)]
    dsimp only
    rw [takeField_bind _ _ _ _ _ _ (decodeU32_encode x12)]
    dsimp only
    rw [takeField_bind _ _ _ _ _ _ (decodeU64_encode x13)]
    dsimp only
    rw [takeField_bind _ _ _ _ _ _ (decodeU128_encode x14)]
    dsimp only
    rw [takeField_bind _ _ _ _ _ _ (decodeU64_encode x15)]
    dsimp only
    rw [takeField_bind _ _ _ _ _ _ (decodeFloat_encode x16)]
    dsimp only
    rw [takeField_bind _ _ _ _ _ _ (decodeFloat_encode x17)]
    dsimp only
    rw [takeOptField_bind_miss "maybe_i64_value" "outcome_string_or_error_code" _ _ _ _ (by decide)]
    dsimp only
    rw [takeField_bind _ _ _ _ _ _ (decodeOutcome_encode x19)]
    dsimp only
    rw [takeField_bind _ _ _ _ _ _ (decodeStringList_encode x20)]
    dsimp only
    rw [takeField_bind _ _ _ _ _ _ (decodeMixedTuple_encode x21)]
    dsimp only
    rw [takeField_bind _ _ _ _ _ _ (decodeU16Array3_encode x22)]
    dsimp only
    rw [takeField_bind _ _ _ _ _ _ (decodeStringSet_encode x23)]
    dsimp only
    rw [takeField_bind _ _ _ _ _ _ (decodeStringU32Map_encode x24)]
    dsimp only
    rw [takeField_bind _ _ _ _ _ _ (decodeUserIdI64Map_encode x25)]
    dsimp only
    rw [takeField_bind _ _ _ _ _ _ (decodeUserId_encode x26)]
    dsimp only
    rw [takeField_bind _ _ _ _ _ _ (decodeBlob_encode x27)]
    dsimp only
    rw [takeField_bind _ _ _ _ _ _ (decodeWrapped_encode decodePair encodePair decodePair_encode x28)]
    dsimp only
    rw [takeField_bind _ _ _ _ _ _ (decodeShape_encode x29)]
    dsimp only
    rw [takeField_bind _ _ _ _ _ _ (decodeMessage_encode x30)]
    dsimp only
    rw [takeField_bind _ _ _ _ _ _ (decodeStatus_encode x31)]
    dsimp only
    rw [takeField_bind _ _ _ _ _ _ (decodeUnit_encode x32)]
    dsimp only
    rw [takeField_bind _ _ _ _ _ _ (decodeUnitStruct_encode x33)]
  | some x18 =>
    dsimp only [encodeAllTypes, allTypesFields, optField, decodeAllTypes, decodeAllTypesFields,
      List.nil_append, List.cons_append]
    rw [takeField_bind _ _ _ _ _ _ (decodeBool_encode x1)]
    dsimp only
    rw [takeField_bind _ _ _ _ _ _ (decodeChar_encode x2)]
    dsimp only
    rw [takeField_bind _ _ _ _ _ _ (decodeString_encode x3)]
    dsimp only
    rw [takeField_bind _ _ _ _ _ _ (decodeI8_encode x4)]
    dsimp only
    rw [takeField_bind _ _ _ _ _ _ (decodeI16_encode x5)]
    dsimp only
    rw [takeField_bind _ _ _ _ _ _ (decodeI32_encode x6)]
    dsimp only
    rw [takeField_bind _ _ _ _ _ _ (decodeI64_encode x7)]
    dsimp only
    rw [takeField_bind _ _ _ _ _ _ (decodeI128_encode x8)]
    dsimp only
    rw [takeField_bind _ _ _ _ _ _ (decodeI64_encode x9)]
    dsimp only
    rw [takeField_bind _ _ _ _ _ _ (decodeU8_encode x10)]
    dsimp only
    rw [takeField_bind _ _ _ _ _ _ (decodeU16_encode x11)]
    dsimp only
    rw [takeField_bind _ _ _ _ _ _ (decodeU32_encode x12)]
    dsimp only
    rw [takeField_bind _ _ _ _ _ _ (decodeU64_encode x13)]
    dsimp only
    rw [takeField_bind _ _ _ _ _ _ (decodeU128_encode x14)]
    dsimp only
    rw [takeField_bind _ _ _ _ _ _ (decodeU64_encode x15)]
    dsimp only
    rw [takeField_bind _ _ _ _ _ _ (decodeFloat_encode x16)]
    dsimp only
    rw [takeField_bind _ _ _ _ _ _ (decodeFloat_encode x17)]
    dsimp only
    rw [takeOptField_bind_hit _ _ _ _ _ _ (decodeI64_encode x18)]
    dsimp only
    rw [takeField_bind _ _ _ _ _ _ (decodeOutcome_encode x19)]
    dsimp only
    rw [takeField_bind _ _ _ _ _ _ (decodeStringList_encode x20)]
    dsimp only
    rw [takeField_bind _ _ _ _ _ _ (decodeMixedTuple_encode x21)]
    dsimp only
    rw [takeField_bind _ _ _ _ _ _ (decodeU16Array3_encode x22)]
    dsimp only
    rw [takeField_bind _ _ _ _ _ _ (decodeStringSet_encode x23)]
    dsimp only
    rw [takeField_bind _ _ _ _ _ _ (decodeStringU32Map_encode x24)]
    dsimp only
    rw [takeField_bind _ _ _ _ _ _ (decodeUserIdI64Map_encode x25)]
    dsimp only
    rw [takeField_bind _ _ _ _ _ _ (decodeUserId_encode x26)]
    dsimp only
    rw [takeField_bind _ _ _ _ _ _ (decodeBlob_encode x27)]
    dsimp only
    rw [takeField_bind _ _ _ _ _ _ (decodeWrapped_encode decodePair encodePair decodePair_encode x28)]
    dsimp only
    rw [takeField_bind _ _ _ _ _ _ (decodeShape_encode x29)]
    dsimp only
    rw [takeField_bind _ _ _ _ _ _ (decodeMessage_encode x30)]
    dsimp only
    rw [takeField_bind _ _ _ _ _ _ (decodeStatus_encode x31)]
    dsimp only
    rw [takeField_bind _ _ _ _ _ _ (decodeUnit_encode x32)]
    dsimp only
    rw [takeField_bind _ _ _ _ _ _ (decodeUnitStruct_encode x33)]

/-- C1: for every type T in the catalog (including the recursive Message enum
and the full AllTypes specimen) and every value v of T, decoding the encoding
of v under T yields a value equal to v; in particular a batch-of-messages
value containing a nested batch round-trips with full structural equality. -/
theorem claim_C1_roundtrip :
    (∀ v : AllTypes, decodeAllTypes (encodeAllTypes v) = .ok v) ∧
    (∀ m : Message, decodeMessage (encodeMessage m) = .ok m) ∧
    (decodeMessage (encodeMessage
        (Message.batch [Message.batch [Message.ping], Message.text "hi"])) =
      .ok (Message.batch [Message.batch [Message.ping], Message.text "hi"])) ∧
    (∀ s : Shape, decodeShape (encodeShape s) = .ok s) ∧
    (∀ s : Status, decodeStatus (encodeStatus s) = .ok s) ∧
    (∀ p : Pair, decodePair (encodePair p) = .ok p) ∧
    (∀ e : ErrorCode, decodeErrorCode (encodeErrorCode e) = .ok e) ∧
    (∀ o : Outcome, decodeOutcome (encodeOutcome o) = .ok o) ∧
    (∀ u : UserId, decodeUserId (encodeUserId u) = .ok u) ∧
    (∀ b : Blob, decodeBlob (encodeBlob b) = .ok b) ∧
    (∀ w : Wrapped Pair, decodeWrapped decodePair (encodeWrapped encodePair w) = .ok w) ∧
    (∀ u : UnitStruct, decodeUnitStruct (encodeUnitStruct u) = .ok u) ∧
    (∀ a : U16Array3, decodeU16Array3 (encodeU16Array3 a) = .ok a) ∧
    (∀ s : BTreeSet String, decodeStringSet (encodeStringSet s) = .ok s) ∧
    (∀ m : BTreeMap String U32, decodeStringU32Map (encodeStringU32Map m) = .ok m) ∧
    (∀ m : BTreeMap UserId I64, decodeUserIdI64Map (encodeUserIdI64Map m) = .ok m) :=
  ⟨decodeAllTypes_encode, decodeMessage_encode, decodeMessage_encode _,
    decodeShape_encode, decodeStatus_encode, decodePair_encode, decodeErrorCode_encode,
    decodeOutcome_encode, decodeUserId_encode, decodeBlob_encode,
    decodeWrapped_encode decodePair encodePair decodePair_encode,
    decodeUnitStruct_encode, decodeU16Array3_encode, decodeStringSet_encode,
    decodeStringU32Map_encode, decodeUserIdI64Map_encode⟩

/-- C2: encode is deterministic on logical equality: equal values (including
sets and maps built in different insertion order) produce byte-identical wire
output. -/
theorem claim_C2_determinism :
    (∀ v w : AllTypes, v = w → encodeAllTypes v = encodeAllTypes w) ∧
    (∀ l₁ l₂ : List String, (∀ x, x ∈ l₁ ↔ x ∈ l₂) →
      encodeStringSet (BTreeSet.ofList l₁) = encodeStringSet (BTreeSet.ofList l₂)) ∧
    (∀ l₁ l₂ : List (UserId × I64), List.Perm l₁ l₂ → (l₁.map Prod.fst).Nodup →
      encodeUserIdI64Map (BTreeMap.ofList l₁) = encodeUserIdI64Map (BTreeMap.ofList l₂)) ∧
    (∀ (v : AllTypes) (l₁ l₂ : List String), (∀ x, x ∈ l₁ ↔ x ∈ l₂) →
      encodeAllTypes { v with string_set := BTreeSet.ofList l₁ } =
        encodeAllTypes { v with string_set := BTreeSet.ofList l₂ }) := by
  refine ⟨fun v w h => by rw [h], fun l₁ l₂ h => ?_, fun l₁ l₂ hp hn => ?_, fun v l₁ l₂ h => ?_⟩
  · have : BTreeSet.ofList l₁ = BTreeSet.ofList l₂ :=
      Subtype.ext (setFromList_eq_of_mem_iff l₁ l₂ h)
    rw [this]
  · have : (BTreeMap.ofList l₁ : BTreeMap UserId I64) = BTreeMap.ofList l₂ :=
      Subtype.ext (mapFromList_eq_of_perm l₁ l₂ hp hn)
    rw [this]
  · have : BTreeSet.ofList l₁ = BTreeSet.ofList l₂ :=
      Subtype.ext (setFromList_eq_of_mem_iff l₁ l₂ h)
    rw [this]

theorem claim_C2_witness :
    (∀ x, x ∈ ["b", "a"] ↔ x ∈ ["a", "b"]) ∧
    (encodeStringSet (BTreeSet.ofList ["b", "a"]) =
      encodeStringSet (BTreeSet.ofList ["a", "b"])) ∧
    List.Perm [(UserId.mk (Uuid.mk "b"), (⟨1, by decide⟩ : I64)),
        (UserId.mk (Uuid.mk "a"), (⟨2, by decide⟩ : I64))]
      [(UserId.mk (Uuid.mk "a"), (⟨2, by decide⟩ : I64)),
        (UserId.mk (Uuid.mk "b"), (⟨1, by decide⟩ : I64))] ∧
    (encodeUserIdI64Map (BTreeMap.ofList
        [(UserId.mk (Uuid.mk "b"), (⟨1, by decide⟩ : I64)),
          (UserId.mk (Uuid.mk "a"), (⟨2, by decide⟩ : I64))]) =
      encodeUserIdI64Map (BTreeMap.ofList
        [(UserId.mk (Uuid.mk "a"), (⟨2, by decide⟩ : I64)),
          (UserId.mk (Uuid.mk "b"), (⟨1, by decide⟩ : I64))])) :=
  ⟨by intro x; simp [List.mem_cons]; tauto,
    claim_C2_determinism.2.1 ["b", "a"] ["a", "b"] (by intro x; simp [List.mem_cons]; tauto),
    by decide,
    claim_C2_determinism.2.2.1 _ _ (by decide) (by decide)⟩

/-- C3: newtype encoding is transparent: for every newtype in the universe
(UserId, Blob, generic Wrapped) and every inner value, encoding the wrapped
value is byte-identical to encoding the inner value directly, with no wrapper
envelope on the wire; decode re-tags at the type level only. -/
theorem claim_C3_newtype_transparency :
    (∀ u : UserId, encodeUserId u = encodeUuid u.uuid) ∧
    (∀ b : Blob, encodeBlob b = encodeByteList b.bytes) ∧
    (∀ (T : Type) (enc : T → Wire) (w : Wrapped T), encodeWrapped enc w = enc w.inner) ∧
    (∀ p : Pair, encodeWrapped encodePair (Wrapped.mk p) = encodePair p) ∧
    (∀ u : Uuid, decodeUserId (encodeUuid u) = .ok (UserId.mk u)) ∧
    (∀ l : List U8, decodeBlob (encodeByteList l) = .ok (Blob.mk l)) := by
  refine ⟨fun u => rfl, fun b => rfl, fun T enc w => rfl, fun p => rfl,
    fun u => by cases u; rfl, fun l => ?_⟩
  simp [decodeBlob, decodeByteList_encode l, except_map_ok]

/-- C4: for the struct with Option-typed fields, encoding a value whose
optional field is absent omits that field from the field-map entirely (never
an explicit null), a present field is encoded, and decode maps a missing
optional field to absent and a present field to Some of the decoded value. -/
theorem claim_C4_optional_fields :
    (∀ s : Status, s.code = none → ∀ w, ("code", w) ∉ statusFields s) ∧
    (∀ s : Status, s.note = none → ∀ w, ("note", w) ∉ statusFields s) ∧
    (∀ s : Status, ∀ x, s.code = some x → ("code", encodeU32 x) ∈ statusFields s) ∧
    (∀ s : Status, ∀ x, s.note = some x → ("note", encodeString x) ∈ statusFields s) ∧
    (∀ s : Status, decodeStatus (encodeStatus s) = .ok s) ∧
    (∀ v : AllTypes, v.maybe_i64_value = none →
      ∀ w, ("maybe_i64_value", w) ∉ allTypesFields v) := by
  refine ⟨fun s h w => ?_, fun s h w => ?_, fun s x h => ?_, fun s x h => ?_,
    decodeStatus_encode, fun v h w => ?_⟩
  · obtain ⟨b, c, n⟩ := s
    cases h
    cases n <;> simp [statusFields, optField]
  · obtain ⟨b, c, n⟩ := s
    cases h
    cases c <;> simp [statusFields, optField]
  · obtain ⟨b, c, n⟩ := s
    cases h
    cases n <;> simp [statusFields, optField]
  · obtain ⟨b, c, n⟩ := s
    cases h
    cases c <;> simp [statusFields, optField]
  · simp [allTypesFields, optField, h]

theorem claim_C4_witness :
    ((Status.mk true none none).code = none) ∧
    (("code", Wire.null) ∉ statusFields (Status.mk true none none)) ∧
    ((Status.mk true (some ⟨7, by decide⟩) none).code = some ⟨7, by decide⟩) ∧
    (("code", encodeU32 ⟨7, by decide⟩) ∈ statusFields (Status.mk true (some ⟨7, by decide⟩) none)) :=
  ⟨rfl, claim_C4_optional_fields.1 (Status.mk true none none) rfl Wire.null,
    rfl, claim_C4_optional_fields.2.2.1 (Status.mk true (some ⟨7, by decide⟩) none) _ rfl⟩

/-- C5 counterexample: the claim says every variant of an internally-tagged
enum decodes successfully whether the content field is omitted or explicitly
null, but a payload-carrying variant with omitted or null content fails to
decode (shown here for Shape.Named and Message.Text). -/
theorem claim_C5_counterexample :
    decodeShape (Wire.map [("variant", Wire.str "Named")]) = .error .malformed ∧
    decodeShape (Wire.map [("variant", Wire.str "Named"), ("data", Wire.null)]) =
      .error .malformed ∧
    decodeMessage (Wire.map [("variant", Wire.str "Text")]) = .error .malformed ∧
    decodeMessage (Wire.map [("variant", Wire.str "Text"), ("data", Wire.null)]) =
      .error .malformed := by
  refine ⟨rfl, rfl, ?_, ?_⟩ <;>
    simp [decodeMessage, parseEnvelope, nullNorm]

/-- C5 (amended): every unit variant of the internally-tagged enums encodes to
an envelope that omits the content field entirely; decode treats an explicit
null content exactly like an omitted content for every tag (same result in
both cases), and every unit variant decodes successfully in both forms to the
variant value.  Payload-carrying variants fail in both forms alike. -/
theorem claim_C5_envelope_null_tolerance :
    (encodeShape .unit = .map [("variant", .str "Unit")]) ∧
    (encodeMessage .ping = .map [("variant", .str "Ping")]) ∧
    (∀ t : String, decodeShape (.map [("variant", .str t), ("data", .null)]) =
      decodeShape (.map [("variant", .str t)])) ∧
    (∀ t : String, decodeMessage (.map [("variant", .str t), ("data", .null)]) =
      decodeMessage (.map [("variant", .str t)])) ∧
    (decodeShape (.map [("variant", .str "Unit")]) = .ok .unit) ∧
    (decodeShape (.map [("variant", .str "Unit"), ("data", .null)]) = .ok .unit) ∧
    (decodeMessage (.map [("variant", .str "Ping")]) = .ok .ping) ∧
    (decodeMessage (.map [("variant", .str "Ping"), ("data", .null)]) = .ok .ping) := by
  refine ⟨rfl, ?_, fun t => rfl, fun t => ?_, rfl, rfl, ?_, ?_⟩ <;>
    simp [encodeMessage, envelope, decodeMessage, parseEnvelope, nullNorm]

/-- C6: every map value (including the non-string-keyed BTreeMap of UserId to
i64) encodes as an ordered list of [key, value] pairs, entries ascending by
the key order regardless of insertion order, and decode fails with
DuplicateKey when a key repeats. -/
theorem claim_C6_map_canonical :
    (∀ m : BTreeMap UserId I64,
      encodeUserIdI64Map m =
          .list (m.val.map (fun p => .list [encodeUserId p.1, encodeI64 p.2])) ∧
        (m.val.map Prod.fst).Sorted (· < ·)) ∧
    (∀ m : BTreeMap String U32,
      encodeStringU32Map m =
          .list (m.val.map (fun p => .list [encodeString p.1, encodeU32 p.2])) ∧
        (m.val.map Prod.fst).Sorted (· < ·)) ∧
    (∀ l₁ l₂ : List (UserId × I64), List.Perm l₁ l₂ → (l₁.map Prod.fst).Nodup →
      encodeUserIdI64Map (BTreeMap.ofList l₁) = encodeUserIdI64Map (BTreeMap.ofList l₂)) ∧
    (∀ ws : List Wire, ∀ es : List (UserId × I64),
      decodeListWith (decodePairWith decodeUserId decodeI64) ws = .ok es →
      ¬ (es.map Prod.fst).Nodup →
      decodeUserIdI64Map (.list ws) = .error .duplicateKey) ∧
    (∀ ws : List Wire, ∀ es : List (String × U32),
      decodeListWith (decodePairWith decodeString decodeU32) ws = .ok es →
      ¬ (es.map Prod.fst).Nodup →
      decodeStringU32Map (.list ws) = .error .duplicateKey) := by
  refine ⟨fun m => ⟨rfl, m.property⟩, fun m => ⟨rfl, m.property⟩,
    fun l₁ l₂ hp hn => ?_, fun ws es h hn => ?_, fun ws es h hn => ?_⟩
  · have : (BTreeMap.ofList l₁ : BTreeMap UserId I64) = BTreeMap.ofList l₂ :=
      Subtype.ext (mapFromList_eq_of_perm l₁ l₂ hp hn)
    rw [this]
  · show decodeMapWith decodeUserId decodeI64 (.list ws) = .error .duplicateKey
    simp only [decodeMapWith]
    rw [h]
    simp only [except_bind_ok]
    rw [if_neg hn]
  · show decodeMapWith decodeString decodeU32 (.list ws) = .error .duplicateKey
    simp only [decodeMapWith]
    rw [h]
    simp only [except_bind_ok]
    rw [if_neg hn]

theorem claim_C6_witness :
    List.Perm [(UserId.mk (Uuid.mk "y"), (⟨5, by decide⟩ : I64)),
        (UserId.mk (Uuid.mk "x"), (⟨4, by decide⟩ : I64))]
      [(UserId.mk (Uuid.mk "x"), (⟨4, by decide⟩ : I64)),
        (UserId.mk (Uuid.mk "y"), (⟨5, by decide⟩ : I64))] ∧
    (encodeUserIdI64Map (BTreeMap.ofList
        [(UserId.mk (Uuid.mk "y"), (⟨5, by decide⟩ : I64)),
          (UserId.mk (Uuid.mk "x"), (⟨4, by decide⟩ : I64))]) =
      encodeUserIdI64Map (BTreeMap.ofList
        [(UserId.mk (Uuid.mk "x"), (⟨4, by decide⟩ : I64)),
          (UserId.mk (Uuid.mk "y"), (⟨5, by decide⟩ : I64))])) ∧
    (decodeListWith (decodePairWith decodeUserId decodeI64)
        [Wire.list [Wire.str "k", Wire.num 1], Wire.list [Wire.str "k", Wire.num 2]] =
      .ok [(UserId.mk (Uuid.mk "k"), ⟨1, by decide⟩), (UserId.mk (Uuid.mk "k"), ⟨2, by decide⟩)]) ∧
    (decodeUserIdI64Map (.list
        [Wire.list [Wire.str "k", Wire.num 1], Wire.list [Wire.str "k", Wire.num 2]]) =
      .error .duplicateKey) :=
  ⟨by decide, claim_C6_map_canonical.2.2.1 _ _ (by decide) (by decide),
    by rfl, claim_C6_map_canonical.2.2.2.1 _ _ (by rfl) (by decide)⟩

/-- C7: positional arity is enforced on decode: a wire list whose length
differs from the declared arity always fails with LengthMismatch for the
fixed array [u16; 3] and with ArityMismatch for the tuple struct Pair, never
padded or truncated. -/
theorem claim_C7_arity :
    (∀ ws : List Wire, ws.length ≠ 3 →
      decodeU16Array3 (.list ws) = .error .lengthMismatch) ∧
    (∀ ws : List Wire, ws.length ≠ 2 →
      decodePair (.list ws) = .error .arityMismatch) := by
  constructor
  · intro ws h
    rcases ws with _ | ⟨a, _ | ⟨b, _ | ⟨c, _ | ⟨d, t⟩⟩⟩⟩
    · rfl
    · rfl
    · rfl
    · exact absurd rfl h
    · rfl
  · intro ws h
    rcases ws with _ | ⟨a, _ | ⟨b, _ | ⟨c, t⟩⟩⟩
    · rfl
    · rfl
    · exact absurd rfl h
    · rfl

theorem claim_C7_witness :
    ([Wire.num 1, Wire.num 2, Wire.num 3, Wire.num 4].length ≠ 3) ∧
    (decodeU16Array3 (.list [Wire.num 1, Wire.num 2, Wire.num 3, Wire.num 4]) =
      .error .lengthMismatch) ∧
    ([Wire.num 1].length ≠ 2) ∧
    (decodePair (.list [Wire.num 1]) = .error .arityMismatch) :=
  ⟨by decide, claim_C7_arity.1 _ (by decide), by decide, claim_C7_arity.2 _ (by decide)⟩

/-- C8: integer width and signedness are enforced: for every declared integer
range, any wire number outside the range fails to decode with RangeOverflow
(in particular 300 into the 8-bit unsigned u8_value field), values in range
decode exactly, and encoded values always lie in the declared range. -/
theorem claim_C8_int_range :
    (∀ lo hi n : Int, (n < lo ∨ hi < n) →
      decodeIntR lo hi (.num n) = .error .rangeOverflow) ∧
    (∀ lo hi n : Int, ∀ h₁ : lo ≤ n, ∀ h₂ : n ≤ hi,
      decodeIntR lo hi (.num n) = .ok ⟨n, h₁, h₂⟩) ∧
    (∀ n : Int, (n < 0 ∨ 255 < n) → decodeU8 (.num n) = .error .rangeOverflow) ∧
    (∀ v : U8, encodeU8 v = .num v.val ∧ 0 ≤ v.val ∧ v.val ≤ 255) ∧
    (∀ v : U8, decodeU8 (encodeU8 v) = .ok v) := by
  have hout : ∀ lo hi n : Int, (n < lo ∨ hi < n) →
      decodeIntR lo hi (.num n) = .error .rangeOverflow := by
    intro lo hi n h
    have : ¬ (lo ≤ n ∧ n ≤ hi) := by omega
    simp [decodeIntR, this]
  refine ⟨hout, ?_, fun n h => hout 0 255 n h, fun v => ⟨rfl, v.property⟩,
    fun v => decodeIntR_encode 0 255 v⟩
  intro lo hi n h₁ h₂
  simp [decodeIntR, h₁, h₂]

theorem claim_C8_witness :
    ((300 : Int) < 0 ∨ (255 : Int) < 300) ∧
    (decodeU8 (.num 300) = .error .rangeOverflow) ∧
    ((0 : Int) ≤ 300 ∧ (300 : Int) ≤ 65535) ∧
    (decodeU16 (.num 300) = .ok ⟨300, by decide, by decide⟩) :=
  ⟨by decide, claim_C8_int_range.2.2.1 300 (by decide),
    by decide, claim_C8_int_range.2.1 0 65535 300 (by decide) (by decide)⟩

/-- C9: uniqueness is enforced on decode: a wire list whose decoded elements
contain two equal values fails to decode into the string set with
DuplicateElement, and a wire entry list with a repeated key fails to decode
into a map with DuplicateKey; duplicates are never silently dropped or
merged. -/
theorem claim_C9_uniqueness :
    (∀ ws : List Wire, ∀ xs : List String,
      decodeListWith decodeString ws = .ok xs → ¬ xs.Nodup →
      decodeStringSet (.list ws) = .error .duplicateElement) ∧
    (∀ ws : List Wire, ∀ es : List (String × U32),
      decodeListWith (decodePairWith decodeString decodeU32) ws = .ok es →
      ¬ (es.map Prod.fst).Nodup →
      decodeStringU32Map (.list ws) = .error .duplicateKey) := by
  constructor
  · intro ws xs h hn
    show decodeSetWith decodeString (.list ws) = .error .duplicateElement
    simp only [decodeSetWith]
    rw [h]
    simp only [except_bind_ok]
    rw [if_neg hn]
  · intro ws es h hn
    show decodeMapWith decodeString decodeU32 (.list ws) = .error .duplicateKey
    simp only [decodeMapWith]
    rw [h]
    simp only [except_bind_ok]
    rw [if_neg hn]

theorem claim_C9_witness :
    (decodeListWith decodeString [Wire.str "a", Wire.str "a"] = .ok ["a", "a"]) ∧
    (¬ (["a", "a"] : List String).Nodup) ∧
    (decodeStringSet (.list [Wire.str "a", Wire.str "a"]) = .error .duplicateElement) ∧
    (decodeListWith (decodePairWith decodeString decodeU32)
        [Wire.list [Wire.str "k", Wire.num 1], Wire.list [Wire.str "k", Wire.num 2]] =
      .ok [("k", ⟨1, by decide⟩), ("k", ⟨2, by decide⟩)]) ∧
    (decodeStringU32Map (.list
        [Wire.list [Wire.str "k", Wire.num 1], Wire.list [Wire.str "k", Wire.num 2]]) =
      .error .duplicateKey) :=
  ⟨by rfl, by decide, claim_C9_uniqueness.1 _ _ (by rfl) (by decide),
    by rfl, claim_C9_uniqueness.2 _ _ (by rfl) (by decide)⟩

/-- C10: decoding the single-Unicode-scalar char field succeeds exactly when
the wire string consists of exactly one Unicode scalar value: a one-scalar
string decodes to that scalar, and an empty or longer string fails. -/
theorem claim_C10_char :
    (∀ (s : String) (c : Char), decodeChar (.str s) = .ok c ↔ s.data = [c]) ∧
    (∀ s : String, s.data.length ≠ 1 → decodeChar (.str s) = .error .malformed) ∧
    (∀ c : Char, decodeChar (.str (String.mk [c])) = .ok c) := by
  refine ⟨fun s c => ?_, fun s h => ?_, fun c => rfl⟩
  · rcases hs : s.data with _ | ⟨a, _ | ⟨b, t⟩⟩ <;> simp [decodeChar, hs]
  · rcases hs : s.data with _ | ⟨a, _ | ⟨b, t⟩⟩
    · simp [decodeChar, hs]
    · exact absurd (by rw [hs]; rfl) h
    · simp [decodeChar, hs]

theorem claim_C10_witness :
    (("ab" : String).data.length ≠ 1) ∧
    (decodeChar (.str "ab") = .error .malformed) ∧
    (("" : String).data.length ≠ 1) ∧
    (decodeChar (.str "") = .error .malformed) :=
  ⟨by decide, claim_C10_char.2.1 "ab" (by decide),
    by decide, claim_C10_char.2.1 "" (by decide)⟩

end Aski
